import Mathlib

/-!
Shallow embedding of the configuration core of the HTNN gateway extension
framework (Go), covering:

* `pkg/plugins/plugins.go` — the plugin catalog, the generic plugin config
  parse pipeline (`PluginConfigParser.Parse`) and the lazily materialized
  plugin-order comparison (`ComparePluginOrder`);
* `internal/consumer/consumer.go` — the `Consumer` entity, its JSON
  serialization (`Marshal`/`Unmarshal`) and its resolution pass
  (`InitConfigs`);
* the registry package (`ParseProtocol`, `CreateRegistry`).

Modelling conventions:

* Go maps are represented as association lists `List (String × V)`; the
  canonical representation of a concrete Go map is the list of its entries
  strictly sorted by key (the order in which `encoding/json` serializes map
  keys).  A `nil` map is distinguished from an empty one with `Option`.
* Go errors built by `fmt.Errorf` are modelled by the structured inductive
  `GoErr`, one constructor per format string appearing in the source, with
  `%w`-wrapped causes kept as sub-errors.
* JSON text is modelled by its parsed form, the inductive `Json`; Go's
  `json.Marshal` output is deterministic (struct fields in declaration
  order, map keys sorted), so equality of the modelled `Json` values
  coincides with equality of the serialized strings, and "field `F` appears
  in the serialized string" coincides with membership of the key `F` in the
  top-level object.
* Plugin- and registry-specific behaviour (config objects, their decode /
  validate / initialization hooks, factories) is abstracted by type
  parameters and function-valued structure fields, exactly the interface
  surface the Go code consumes.
-/

/-! ## Association-list maps (the model of Go maps) -/

/-- Lookup in an association list; the model of Go map indexing. -/
def lookupStr {V : Type} : List (String × V) → String → Option V
  | [], _ => none
  | (k, v) :: rest, key => if k = key then some v else lookupStr rest key

/-- Lookup with a default; the model of Go map indexing returning the zero
value for a missing key. -/
def lookupD {V : Type} (l : List (String × V)) (key : String) (dflt : V) : V :=
  match lookupStr l key with
  | some v => v
  | none => dflt

/-- Insert-or-replace keeping keys strictly sorted; the model of a Go map
assignment `m[k] = v` on the canonical (key-sorted) representation. -/
def insertKV {V : Type} (k : String) (v : V) : List (String × V) → List (String × V)
  | [] => [(k, v)]
  | (k', v') :: rest =>
    if k = k' then (k, v) :: rest
    else if k < k' then (k, v) :: (k', v') :: rest
    else (k', v') :: insertKV k v rest

/-- Build the canonical (key-sorted, last-writer-wins) map from a list of
entries, the way successive Go map assignments do. -/
def buildMap {V : Type} (l : List (String × V)) : List (String × V) :=
  l.foldl (fun m kv => insertKV kv.1 kv.2 m) []

/-- Keys of an association list. -/
def keysOf {V : Type} (l : List (String × V)) : List String :=
  l.map (fun kv => kv.1)

/-- Keys of an optional (possibly `nil`) Go map. -/
def keysO {V : Type} (o : Option (List (String × V))) : List String :=
  keysOf (o.getD [])

/-- The canonical-representation invariant of a Go map: entries strictly
sorted by key (hence keys pairwise distinct). -/
def keysSorted {V : Type} (l : List (String × V)) : Prop :=
  l.Pairwise (fun x y => x.1 < y.1)

instance {V : Type} (l : List (String × V)) : Decidable (keysSorted l) :=
  List.instDecidablePairwise l

/-! ## Structured Go errors -/

/-- Go errors of the embedded code, one constructor per `fmt.Errorf` format
string in the source; `%w`-wrapped causes are kept structurally. -/
inductive GoErr where
  /-- an error produced inside a plugin's or registry's own hooks -/
  | msg (s : String)
  /-- The `"plugin %s is not for consumer"` -/
  | notForConsumer (name : String)
  /-- The `"failed to unmarshal consumer config for plugin %s: %w"` -/
  | unmarshalConsumerConfig (name : String) (cause : GoErr)
  /-- The `"failed to validate consumer config for plugin %s: %w"` -/
  | validateConsumerConfig (name : String) (cause : GoErr)
  /-- The `"plugin %s not found"` -/
  | pluginNotFound (name : String)
  /-- The `"%w during parsing plugin %s in consumer"` -/
  | parseInConsumer (name : String) (cause : GoErr)
  /-- The `"unknown registry %s"` -/
  | unknownRegistry (name : String)
  /-- a decode error from `json`/`protojson` unmarshalling -/
  | decodeErr (s : String)
deriving DecidableEq

/-- The plugin (or registry) name carried at the top level of an error, i.e.
the name interpolated into the outermost `fmt.Errorf` format string. -/
def errPluginName : GoErr → Option String
  | .msg _ => none
  | .notForConsumer n => some n
  | .unmarshalConsumerConfig n _ => some n
  | .validateConsumerConfig n _ => some n
  | .pluginNotFound n => some n
  | .parseInConsumer n _ => some n
  | .unknownRegistry n => some n
  | .decodeErr _ => none

/-! ## JSON values -/

/-- Parsed JSON text.  Object fields are kept as an ordered list; Go's
encoder always emits struct fields in declaration order and map keys in
sorted order, so a serialized string is uniquely represented. -/
inductive Json where
  | null
  | bool (b : Bool)
  | num (n : Int)
  | str (s : String)
  | arr (elems : List Json)
  | obj (fields : List (String × Json))

/-- Top-level keys of a JSON object (the fields appearing in the serialized
string); empty for non-objects. -/
def Json.keys : Json → List String
  | .obj fields => keysOf fields
  | _ => []

/-! ## Protocol parsing (registry package) -/

/-- Go's `Protocol` is a string-backed type. -/
abbrev Protocol := String

def HTTP : Protocol := "HTTP"
def HTTPS : Protocol := "HTTPS"
def GRPC : Protocol := "GRPC"
def HTTP2 : Protocol := "HTTP2"
def MONGO : Protocol := "MONGO"
def TCP : Protocol := "TCP"
def TLS : Protocol := "TLS"
def Unsupported : Protocol := "Unsupported"

/-- The `ProtocolMap` literal from the source. -/
def ProtocolMap : List (String × Protocol) :=
  [("http", HTTP), ("https", HTTPS), ("grpc", GRPC), ("http2", HTTP2),
   ("mongo", MONGO), ("tcp", TCP), ("tls", TLS)]

/-- ASCII lowercasing of one character; the behaviour of Go's
`strings.ToLower` on the ASCII inputs relevant here. -/
def charLower (c : Char) : Char :=
  if 'A' ≤ c ∧ c ≤ 'Z' then Char.ofNat (c.toNat + 32) else c

/-- Model of `strings.ToLower` (ASCII range). -/
def toLowerGo (s : String) : String :=
  ⟨s.data.map charLower⟩

/-- The `ParseProtocol` from the source: look the lowercased string up in
`ProtocolMap`, defaulting to `Unsupported`. -/
def ParseProtocol (s : String) : Protocol :=
  match lookupStr ProtocolMap (toLowerGo s) with
  | some res => res
  | none => Unsupported

/-! ## Registry factory table (`CreateRegistry`) -/

/-- A registry factory `func(store ServiceEntryStore, om metav1.ObjectMeta)
(Registry, error)`, abstract over the store (`σ`), metadata (`μ`) and
registry (`ρ`) types. -/
def RegistryFactory (σ μ ρ : Type) : Type := σ → μ → Except GoErr ρ

/-- The `CreateRegistry` from the source, instrumented with the list of factory
names actually invoked (so that "no factory is invoked" is expressible):
look the name up in the factory table; unknown names yield the
`"unknown registry %s"` error before any factory runs. -/
def CreateRegistry {σ μ ρ : Type} (registryFactories : List (String × RegistryFactory σ μ ρ))
    (name : String) (store : σ) (om : μ) : Except GoErr ρ × List String :=
  match lookupStr registryFactories name with
  | none => (.error (.unknownRegistry name), [])
  | some factory => (factory store om, [name])

/-! ## Plugin catalog (`pkg/plugins/plugins.go`) -/

/-- The `PluginOrder` — the two-part sort key `{Position, Operation}` (both Go
integer enums; the zero value is `{0, 0}`). -/
structure PluginOrder where
  position : Int
  operation : Int
deriving DecidableEq

/-- The Go zero value of `PluginOrder`, used for names missing from the
order snapshot. -/
def zeroOrder : PluginOrder := ⟨0, 0⟩

/-- The behaviour of a plugin's filter-config object (`cp.Config()` and the
hooks `protojson.Unmarshal` / `Validate` / `Init` act on), abstracted over
the object's state type `γ`. -/
structure ConfigOps (γ : Type) where
  /-- the fresh empty config object returned by `Config()` -/
  config : γ
  /-- The `protojson.Unmarshal(data, conf)`: decode the (re-encoded) value into
  the object, producing the updated object or a decode error -/
  unmarshal : Json → γ → Except GoErr γ
  /-- The `conf.Validate()` -/
  validate : γ → Except GoErr Unit
  /-- The `conf.Init(callbacks)`: initialization hook mutating the object -/
  init : γ → Except GoErr γ

/-- The consumer-authentication capability (`plugins.ConsumerPlugin`),
abstracted over the credential-config state type `κ`. -/
structure ConsumerOps (κ : Type) where
  /-- the fresh credential-config object returned by `ConsumerConfig()` -/
  consumerConfig : κ
  /-- The `proto.UnmarshalJSON(data, conf)` on the credential config -/
  unmarshalJSON : String → κ → Except GoErr κ
  /-- The `conf.Validate()` on the credential config -/
  validate : κ → Except GoErr Unit

/-- A registered plugin: its declared order, its filter-config behaviour,
its filter factory (opaque, identified by a token), and — when the plugin
implements `plugins.ConsumerPlugin` — its consumer capability. -/
structure Plugin (γ κ : Type) where
  order : PluginOrder
  config : ConfigOps γ
  factory : Nat
  consumer : Option (ConsumerOps κ)

/-- The process-wide mutable state of the `plugins` package: the
`httpPlugins` catalog, the `nameToOrder` snapshot and the `sync.Once` flag
guarding its one-time materialization. -/
structure PluginState (γ κ : Type) where
  httpPlugins : List (String × Plugin γ κ)
  nameToOrder : List (String × PluginOrder)
  nameToOrderDone : Bool

/-- The `RegisterHttpPlugin`: store the plugin in the catalog (insert or
overwrite).  The side registration of the factory-and-parser pair in the
filter manager is observed through `LoadHttpFilterFactoryAndParser` below. -/
def RegisterHttpPlugin {γ κ : Type} (s : PluginState γ κ) (name : String)
    (plugin : Plugin γ κ) : PluginState γ κ :=
  { s with httpPlugins := insertKV name plugin s.httpPlugins }

/-- The `LoadHttpPlugin`: catalog lookup, `nil` (`none`) when absent. -/
def LoadHttpPlugin {γ κ : Type} (httpPlugins : List (String × Plugin γ κ))
    (name : String) : Option (Plugin γ κ) :=
  lookupStr httpPlugins name

/-- The snapshot `IterateHttpPlugin` materializes on the first
`ComparePluginOrder` call: `name → value.Order()` over the catalog. -/
def orderTable {γ κ : Type} (httpPlugins : List (String × Plugin γ κ)) :
    List (String × PluginOrder) :=
  httpPlugins.map (fun kv => (kv.1, kv.2.order))

/-- The pure comparison at the end of `ComparePluginOrder`: `Position`
first, then `Operation`, then lexicographic name. -/
def cmpPluginOrder (aOrder bOrder : PluginOrder) (a b : String) : Bool :=
  if aOrder.position ≠ bOrder.position then decide (aOrder.position < bOrder.position)
  else if aOrder.operation ≠ bOrder.operation then decide (aOrder.operation < bOrder.operation)
  else decide (a < b)

/-- Comparison against a given snapshot, with the Go zero value for names
missing from it. -/
def cmpSnapshot (snap : List (String × PluginOrder)) (a b : String) : Bool :=
  cmpPluginOrder (lookupD snap a zeroOrder) (lookupD snap b zeroOrder) a b

/-- The `ComparePluginOrder(a, b)` as a state transition: the first call
materializes the `nameToOrder` snapshot from the current catalog (guarded
by the `sync.Once`), every call compares against the stored snapshot. -/
def ComparePluginOrder {γ κ : Type} (s : PluginState γ κ) (a b : String) :
    Bool × PluginState γ κ :=
  let s' := if s.nameToOrderDone then s
    else { s with nameToOrder := orderTable s.httpPlugins, nameToOrderDone := true }
  (cmpSnapshot s'.nameToOrder a b, s')

/-! ## The generic plugin config parse pipeline (`PluginConfigParser.Parse`) -/

/-- The observable stages of the parse pipeline. -/
inductive Stage where
  | decode
  | validate
  | init
deriving DecidableEq

/-- The `PluginConfigParser.Parse(any, callbacks)`, instrumented with the list
of stages actually invoked.  Mirrors the source's early-return chain:
obtain the fresh config object; when a value is present, re-encode it
(`json.Marshal`, which cannot fail on an already-parsed JSON value) and
decode it into the object; then validate; then initialize; the first
failure is returned as is. -/
def ParseRun {γ : Type} (ops : ConfigOps γ) (value : Option Json) :
    Except GoErr γ × List Stage :=
  let conf := ops.config
  match value with
  | some a =>
    match ops.unmarshal a conf with
    | .error err => (.error err, [Stage.decode])
    | .ok conf' =>
      match ops.validate conf' with
      | .error err => (.error err, [Stage.decode, Stage.validate])
      | .ok _ =>
        match ops.init conf' with
        | .error err => (.error err, [Stage.decode, Stage.validate, Stage.init])
        | .ok conf'' => (.ok conf'', [Stage.decode, Stage.validate, Stage.init])
  | none =>
    match ops.validate conf with
    | .error err => (.error err, [Stage.validate])
    | .ok _ =>
      match ops.init conf with
      | .error err => (.error err, [Stage.validate, Stage.init])
      | .ok conf'' => (.ok conf'', [Stage.validate, Stage.init])

/-- The `PluginConfigParser.Parse` proper (result without the instrumentation). -/
def Parse {γ : Type} (ops : ConfigOps γ) (value : Option Json) : Except GoErr γ :=
  (ParseRun ops value).1

/-! ## Consumer (`internal/consumer/consumer.go`) -/

/-- Modelled from the spec: `model.FilterConfig` (package
`pkg/filtermanager/model`, not part of the sources under verification) is
the per-filter entry of `Consumer.Filters` — "mapping(plugin name →
{config blob, ...})" — whose `Config` field holds the opaque configuration
blob handed to the parse pipeline (`nil` possible). -/
structure FilterConfig where
  config : Option Json

/-- The `model.ParsedFilterConfig` as constructed by `InitConfigs`:
`{Name, ParsedConfig, Factory}`. -/
structure ParsedFilterConfig (γ : Type) where
  name : String
  parsedConfig : γ
  factory : Nat

/-- Modelled from the spec: `model.FilterWrapper` (package
`pkg/filtermanager/model`, not part of the sources under verification) is
opaque here; only its JSON image matters for serialization, so a wrapper is
represented by that image. -/
def FilterWrapper : Type := Json

/-- The `Consumer` struct.  Field-by-field translation; Go `nil` maps and
slices are `none`.  The unexported `namespace` field is spelt `namespc`
(`namespace` is a Lean keyword).  `γ` and `κ` are the filter-config and
credential-config state types of the plugins involved. -/
structure Consumer (γ κ : Type) where
  /-- The `Auth map[string]string` with tag `json:"auth"` -/
  Auth : Option (List (String × String))
  /-- The `Filters map[string]*model.FilterConfig` with tag `json:"filters,omitempty"` -/
  Filters : Option (List (String × FilterConfig))
  /-- unexported `namespace` -/
  namespc : String
  /-- unexported `name` -/
  name : String
  /-- unexported `generation` -/
  generation : Int
  /-- The `ConsumerConfigs` with tag `json:"-"` -/
  ConsumerConfigs : Option (List (String × κ))
  /-- The `FilterConfigs` with tag `json:"-"` -/
  FilterConfigs : Option (List (String × ParsedFilterConfig γ))
  /-- The `CanSkipMethod map[string]bool`, no tag -/
  CanSkipMethod : Option (List (String × Bool))
  /-- The `FilterNames []string`, no tag -/
  FilterNames : Option (List String)
  /-- The `FilterWrappers []*model.FilterWrapper`, no tag -/
  FilterWrappers : Option (List FilterWrapper)

/-- The Go zero value of `Consumer` (the state `json.Unmarshal` starts from
when decoding into a freshly allocated Consumer). -/
def freshConsumer (γ κ : Type) : Consumer γ κ :=
  ⟨none, none, "", "", 0, none, none, none, none, none⟩

/-- JSON image of a `map[string]string` (Go: `nil` → `null`, otherwise an
object with sorted keys). -/
def marshalStrMap (m : Option (List (String × String))) : Json :=
  match m with
  | none => .null
  | some l => .obj ((buildMap l).map (fun kv => (kv.1, Json.str kv.2)))

/-- JSON image of one `model.FilterConfig` value. -/
def marshalFilterConfig (fc : FilterConfig) : Json :=
  .obj [("config", (fc.config).getD .null)]

/-- The `filters` field of the serialized Consumer: omitted entirely
(`omitempty`) when the map is `nil` or empty. -/
def filtersField (m : Option (List (String × FilterConfig))) : List (String × Json) :=
  match m with
  | none => []
  | some [] => []
  | some l => [("filters", .obj ((buildMap l).map (fun kv => (kv.1, marshalFilterConfig kv.2))))]

/-- JSON image of a `map[string]bool`. -/
def marshalBoolMap (m : Option (List (String × Bool))) : Json :=
  match m with
  | none => .null
  | some l => .obj ((buildMap l).map (fun kv => (kv.1, Json.bool kv.2)))

/-- JSON image of a `[]string`. -/
def marshalStrList (l : Option (List String)) : Json :=
  match l with
  | none => .null
  | some xs => .arr (xs.map Json.str)

/-- JSON image of the `FilterWrappers` slice. -/
def marshalWrappers (l : Option (List FilterWrapper)) : Json :=
  match l with
  | none => .null
  | some xs => .arr xs

/-- The `Consumer.Marshal()`: `json.Marshal` of the struct, modelled by the
parsed form of the produced string.  Exported fields are emitted in
declaration order; fields tagged `json:"-"` (`ConsumerConfigs`,
`FilterConfigs`) and the unexported fields (`namespace`, `name`,
`generation`) are skipped; `filters` carries `omitempty`. -/
def Consumer.Marshal {γ κ : Type} (c : Consumer γ κ) : Json :=
  .obj ([("auth", marshalStrMap c.Auth)]
    ++ filtersField c.Filters
    ++ [("CanSkipMethod", marshalBoolMap c.CanSkipMethod),
        ("FilterNames", marshalStrList c.FilterNames),
        ("FilterWrappers", marshalWrappers c.FilterWrappers)])

/-- Decode the fields of a JSON object into `(String × String)` entries
(every value must be a JSON string). -/
def decodeStrFields : List (String × Json) → Except GoErr (List (String × String))
  | [] => .ok []
  | (k, .str s) :: rest => do
    let tail ← decodeStrFields rest
    .ok ((k, s) :: tail)
  | (_, _) :: _ => .error (.decodeErr "cannot unmarshal value into string")

/-- The `json.Unmarshal` of a JSON value into a `map[string]string` target:
`null` leaves the map untouched, an object allocates the map if `nil` and
merges the decoded entries into it, anything else is a type error. -/
def decodeStrMap (j : Json) (cur : Option (List (String × String))) :
    Except GoErr (Option (List (String × String))) :=
  match j with
  | .null => .ok cur
  | .obj fields => do
    let pairs ← decodeStrFields fields
    .ok (some (pairs.foldl (fun m kv => insertKV kv.1 kv.2 m) (cur.getD [])))
  | _ => .error (.decodeErr "cannot unmarshal value into map of string")

/-- The `json.Unmarshal` of one JSON value into a `model.FilterConfig`: the
`config` field (absent or `null` leaves the blob `nil`), other fields
ignored. -/
def decodeFilterConfig (j : Json) : Except GoErr FilterConfig :=
  match j with
  | .obj fields =>
    match lookupStr fields "config" with
    | none => .ok ⟨none⟩
    | some .null => .ok ⟨none⟩
    | some v => .ok ⟨some v⟩
  | .null => .ok ⟨none⟩
  | _ => .error (.decodeErr "cannot unmarshal value into FilterConfig")

/-- Decode the fields of a JSON object into `(String × FilterConfig)`
entries. -/
def decodeFilterFields : List (String × Json) → Except GoErr (List (String × FilterConfig))
  | [] => .ok []
  | (k, v) :: rest => do
    let fc ← decodeFilterConfig v
    let tail ← decodeFilterFields rest
    .ok ((k, fc) :: tail)

/-- The `json.Unmarshal` of a JSON value into the `Filters` map. -/
def decodeFilterMap (j : Json) (cur : Option (List (String × FilterConfig))) :
    Except GoErr (Option (List (String × FilterConfig))) :=
  match j with
  | .null => .ok cur
  | .obj fields => do
    let pairs ← decodeFilterFields fields
    .ok (some (pairs.foldl (fun m kv => insertKV kv.1 kv.2 m) (cur.getD [])))
  | _ => .error (.decodeErr "cannot unmarshal value into map of FilterConfig")

/-- Decode the fields of a JSON object into `(String × Bool)` entries. -/
def decodeBoolFields : List (String × Json) → Except GoErr (List (String × Bool))
  | [] => .ok []
  | (k, .bool b) :: rest => do
    let tail ← decodeBoolFields rest
    .ok ((k, b) :: tail)
  | (_, _) :: _ => .error (.decodeErr "cannot unmarshal value into bool")

/-- The `json.Unmarshal` of a JSON value into the `CanSkipMethod` map. -/
def decodeBoolMap (j : Json) (cur : Option (List (String × Bool))) :
    Except GoErr (Option (List (String × Bool))) :=
  match j with
  | .null => .ok cur
  | .obj fields => do
    let pairs ← decodeBoolFields fields
    .ok (some (pairs.foldl (fun m kv => insertKV kv.1 kv.2 m) (cur.getD [])))
  | _ => .error (.decodeErr "cannot unmarshal value into map of bool")

/-- Decode a JSON array of strings. -/
def decodeStrElems : List Json → Except GoErr (List String)
  | [] => .ok []
  | .str s :: rest => do
    let tail ← decodeStrElems rest
    .ok (s :: tail)
  | _ :: _ => .error (.decodeErr "cannot unmarshal value into string")

/-- The `json.Unmarshal` of a JSON value into the `FilterNames` slice (`null`
is a no-op, an array replaces the slice). -/
def decodeStrList (j : Json) (cur : Option (List String)) :
    Except GoErr (Option (List String)) :=
  match j with
  | .null => .ok cur
  | .arr elems => do
    let xs ← decodeStrElems elems
    .ok (some xs)
  | _ => .error (.decodeErr "cannot unmarshal value into slice of string")

/-- The `json.Unmarshal` of a JSON value into the `FilterWrappers` slice. -/
def decodeWrappers (j : Json) (cur : Option (List FilterWrapper)) :
    Except GoErr (Option (List FilterWrapper)) :=
  match j with
  | .null => .ok cur
  | .arr elems => .ok (some elems)
  | _ => .error (.decodeErr "cannot unmarshal value into slice of FilterWrapper")

/-- The `Consumer.Unmarshal(s)`: `json.Unmarshal` of the string (given by its
parsed form) into the receiver.  The decoder matches top-level keys to the
taggable fields (`auth`, `filters`, `CanSkipMethod`, `FilterNames`,
`FilterWrappers`), ignores unknown keys, and treats an absent key like a
`null` (both leave the field untouched). -/
def Consumer.Unmarshal {γ κ : Type} (c : Consumer γ κ) (j : Json) :
    Except GoErr (Consumer γ κ) :=
  match j with
  | .obj fields => do
    let auth ← decodeStrMap ((lookupStr fields "auth").getD .null) c.Auth
    let filters ← decodeFilterMap ((lookupStr fields "filters").getD .null) c.Filters
    let canSkip ← decodeBoolMap ((lookupStr fields "CanSkipMethod").getD .null) c.CanSkipMethod
    let fNames ← decodeStrList ((lookupStr fields "FilterNames").getD .null) c.FilterNames
    let fWrappers ← decodeWrappers ((lookupStr fields "FilterWrappers").getD .null) c.FilterWrappers
    .ok { c with Auth := auth, Filters := filters, CanSkipMethod := canSkip,
                 FilterNames := fNames, FilterWrappers := fWrappers }
  | _ => .error (.decodeErr "cannot unmarshal value into Consumer")

/-- Modelled from the spec: `plugins.LoadHttpFilterFactoryAndParser` (its
definition lives in the filter-manager package, outside the sources under
verification).  `RegisterHttpPlugin` registers, under the same name, the
plugin's filter factory together with a `PluginConfigParser` wrapping the
plugin, so the lookup returns exactly the catalog entry's factory and
config behaviour — `nil` (`none`) for an unregistered name. -/
def LoadHttpFilterFactoryAndParser {γ κ : Type}
    (httpPlugins : List (String × Plugin γ κ)) (name : String) :
    Option (Plugin γ κ) :=
  lookupStr httpPlugins name

/-- The `Auth` loop of `InitConfigs`: for each `(name, data)` entry, load
the plugin and require the `ConsumerPlugin` capability (a failed type
assertion — including the unregistered, `nil` case — yields
`"plugin %s is not for consumer"`), decode the blob into a fresh credential
config, validate it, and store it under `name`.  Returns the loop outcome
together with the `ConsumerConfigs` contents written so far (the Go code
mutates `c.ConsumerConfigs` in place). -/
def initAuthLoop {γ κ : Type} (httpPlugins : List (String × Plugin γ κ)) :
    List (String × String) → List (String × κ) →
    Except GoErr Unit × List (String × κ)
  | [], acc => (.ok (), acc)
  | (name, data) :: rest, acc =>
    match LoadHttpPlugin httpPlugins name with
    | none => (.error (.notForConsumer name), acc)
    | some p =>
      match p.consumer with
      | none => (.error (.notForConsumer name), acc)
      | some ops =>
        match ops.unmarshalJSON data ops.consumerConfig with
        | .error e => (.error (.unmarshalConsumerConfig name e), acc)
        | .ok conf =>
          match ops.validate conf with
          | .error e => (.error (.validateConsumerConfig name e), acc)
          | .ok _ => initAuthLoop httpPlugins rest (insertKV name conf acc)

/-- The `Filters` loop of `InitConfigs`: for each `(name, data)` entry,
load the registered factory-and-parser pair (`nil` yields
`"plugin %s not found"`), run the generic parse pipeline on `data.Config`
(a failure is wrapped as `"%w during parsing plugin %s in consumer"`), and
store `{name, parsed config, factory}` under `name`. -/
def initFilterLoop {γ κ : Type} (httpPlugins : List (String × Plugin γ κ)) :
    List (String × FilterConfig) → List (String × ParsedFilterConfig γ) →
    Except GoErr Unit × List (String × ParsedFilterConfig γ)
  | [], acc => (.ok (), acc)
  | (name, data) :: rest, acc =>
    match LoadHttpFilterFactoryAndParser httpPlugins name with
    | none => (.error (.pluginNotFound name), acc)
    | some p =>
      match Parse p.config data.config with
      | .error e => (.error (.parseInConsumer name e), acc)
      | .ok conf =>
        initFilterLoop httpPlugins rest (insertKV name ⟨name, conf, p.factory⟩ acc)

/-- The `Consumer.InitConfigs()`: allocate `ConsumerConfigs` and run the `Auth`
loop, then allocate `FilterConfigs` and run the `Filters` loop; the first
failure aborts.  The Go method mutates the receiver in place, so the result
pairs the returned error with the consumer as left behind (on an `Auth`
failure `FilterConfigs` has not been reallocated yet). -/
def InitConfigs {γ κ : Type} (httpPlugins : List (String × Plugin γ κ))
    (c : Consumer γ κ) : Except GoErr Unit × Consumer γ κ :=
  let authRes := initAuthLoop httpPlugins (c.Auth.getD []) []
  let c1 := { c with ConsumerConfigs := some authRes.2 }
  match authRes.1 with
  | .error e => (.error e, c1)
  | .ok _ =>
    let filterRes := initFilterLoop httpPlugins (c1.Filters.getD []) []
    let c2 := { c1 with FilterConfigs := some filterRes.2 }
    (filterRes.1, c2)

/-- Insertion of a name into a list sorted by a boolean less-than. -/
def insertSorted (lt : String → String → Bool) (x : String) :
    List String → List String
  | [] => [x]
  | y :: ys => if lt x y then x :: y :: ys else y :: insertSorted lt x ys

/-- Insertion sort by a boolean less-than. -/
def sortByCmp (lt : String → String → Bool) : List String → List String
  | [] => []
  | x :: xs => insertSorted lt x (sortByCmp lt xs)

/-- Modelled from the spec: the derivation of `Consumer.FilterNames` ("the
sequence of the names in `Filters` sorted by `CompareOrder`") is not part
of the sources under verification — `InitConfigs` as given never writes
`FilterNames`.  Per the spec, the derived value is the key set of `Filters`
sorted by `ComparePluginOrder` against the materialized order snapshot. -/
def deriveFilterNames (snap : List (String × PluginOrder))
    (filters : Option (List (String × FilterConfig))) : List String :=
  sortByCmp (cmpSnapshot snap) (keysO filters)

/-! ## Helper lemmas -/

theorem lookupStr_eq_none {V : Type} (l : List (String × V)) (k : String)
    (h : k ∉ keysOf l) : lookupStr l k = none := by
  induction l with
  | nil => rfl
  | cons kv rest ih =>
    simp only [keysOf, List.map_cons, List.mem_cons] at h
    push_neg at h
    obtain ⟨kv1, kv2⟩ := kv
    simp only [lookupStr]
    rw [if_neg (fun he => h.1 he.symm)]
    exact ih (by simpa [keysOf] using h.2)

theorem mem_keysOf_insertKV {V : Type} (k n : String) (v : V)
    (m : List (String × V)) :
    n ∈ keysOf (insertKV k v m) ↔ n = k ∨ n ∈ keysOf m := by
  induction m with
  | nil => simp [insertKV, keysOf]
  | cons kv rest ih =>
    obtain ⟨k', v'⟩ := kv
    simp only [insertKV]
    by_cases h1 : k = k'
    · subst h1
      rw [if_pos rfl]
      simp only [keysOf, List.map_cons, List.mem_cons]
      tauto
    · rw [if_neg h1]
      by_cases h2 : k < k'
      · rw [if_pos h2]
        simp only [keysOf, List.map_cons, List.mem_cons]
      · rw [if_neg h2]
        simp only [keysOf, List.map_cons, List.mem_cons] at ih ⊢
        tauto

theorem insertKV_append {V : Type} (k : String) (v : V) (m : List (String × V))
    (h : ∀ kv ∈ m, kv.1 < k) : insertKV k v m = m ++ [(k, v)] := by
  induction m with
  | nil => rfl
  | cons kv rest ih =>
    obtain ⟨k', v'⟩ := kv
    have hk' : k' < k := h (k', v') (List.mem_cons_self _ _)
    simp only [insertKV]
    rw [if_neg (fun he => absurd he (ne_of_gt hk')), if_neg (asymm hk')]
    rw [ih (fun kv hkv => h kv (List.mem_cons_of_mem _ hkv))]
    rfl

theorem foldl_insertKV_sorted {V : Type} :
    ∀ (l acc : List (String × V)), keysSorted (acc ++ l) →
      l.foldl (fun m kv => insertKV kv.1 kv.2 m) acc = acc ++ l := by
  intro l
  induction l with
  | nil => intro acc _; simp
  | cons kv rest ih =>
    intro acc hsorted
    obtain ⟨k, v⟩ := kv
    have hlt : ∀ x ∈ acc, x.1 < k := by
      rw [keysSorted, List.pairwise_append] at hsorted
      intro x hx
      exact hsorted.2.2 x hx (k, v) (List.mem_cons_self _ _)
    have hstep : insertKV k v acc = acc ++ [(k, v)] := insertKV_append k v acc hlt
    simp only [List.foldl_cons, hstep]
    have hres : (acc ++ [(k, v)]) ++ rest = acc ++ ((k, v) :: rest) := by
      simp
    rw [ih (acc ++ [(k, v)]) (by rw [hres]; exact hsorted)]
    rw [hres]

theorem buildMap_eq_self {V : Type} (l : List (String × V)) (h : keysSorted l) :
    buildMap l = l := by
  have := foldl_insertKV_sorted l [] (by simpa using h)
  simpa [buildMap] using this

theorem decodeStrFields_map (al : List (String × String)) :
    decodeStrFields (al.map (fun kv => (kv.1, Json.str kv.2))) = .ok al := by
  induction al with
  | nil => rfl
  | cons kv rest ih =>
    obtain ⟨k, v⟩ := kv
    simp only [List.map_cons, decodeStrFields, ih]
    rfl

theorem decodeFilterConfig_marshal (fc : FilterConfig)
    (h : fc.config ≠ some Json.null) :
    decodeFilterConfig (marshalFilterConfig fc) = .ok fc := by
  obtain ⟨cfg⟩ := fc
  match cfg with
  | none => rfl
  | some v =>
    cases v with
    | null => exact absurd rfl h
    | bool b => rfl
    | num n => rfl
    | str s => rfl
    | arr xs => rfl
    | obj fs => rfl

theorem decodeFilterFields_map (fl : List (String × FilterConfig))
    (h : ∀ kv ∈ fl, kv.2.config ≠ some Json.null) :
    decodeFilterFields (fl.map (fun kv => (kv.1, marshalFilterConfig kv.2))) = .ok fl := by
  induction fl with
  | nil => rfl
  | cons kv rest ih =>
    obtain ⟨k, fc⟩ := kv
    have h1 : fc.config ≠ some Json.null := h (k, fc) (List.mem_cons_self _ _)
    have h2 := ih (fun kv hkv => h kv (List.mem_cons_of_mem _ hkv))
    simp only [List.map_cons, decodeFilterFields, decodeFilterConfig_marshal fc h1, h2]
    rfl

theorem initAuthLoop_err_name {γ κ : Type} (tbl : List (String × Plugin γ κ)) :
    ∀ (entries : List (String × String)) (acc : List (String × κ)) (e : GoErr),
      (initAuthLoop tbl entries acc).1 = .error e →
      ∃ m, errPluginName e = some m ∧ m ∈ keysOf entries := by
  intro entries
  induction entries with
  | nil => intro acc e h; simp [initAuthLoop] at h
  | cons kv rest ih =>
    intro acc e h
    obtain ⟨name, data⟩ := kv
    rcases hload : LoadHttpPlugin tbl name with _ | p
    · simp only [initAuthLoop, hload, Except.error.injEq] at h
      subst h
      exact ⟨name, rfl, by simp [keysOf]⟩
    · rcases hcons : p.consumer with _ | ops
      · simp only [initAuthLoop, hload, hcons, Except.error.injEq] at h
        subst h
        exact ⟨name, rfl, by simp [keysOf]⟩
      · rcases hdec : ops.unmarshalJSON data ops.consumerConfig with e' | conf
        · simp only [initAuthLoop, hload, hcons, hdec, Except.error.injEq] at h
          subst h
          exact ⟨name, rfl, by simp [keysOf]⟩
        · rcases hval : ops.validate conf with e' | u
          · simp only [initAuthLoop, hload, hcons, hdec, hval, Except.error.injEq] at h
            subst h
            exact ⟨name, rfl, by simp [keysOf]⟩
          · simp only [initAuthLoop, hload, hcons, hdec, hval] at h
            obtain ⟨m, hm1, hm2⟩ := ih (insertKV name conf acc) e h
            refine ⟨m, hm1, ?_⟩
            simp only [keysOf, List.map_cons, List.mem_cons]
            right
            exact hm2

theorem initAuthLoop_fails {γ κ : Type} (tbl : List (String × Plugin γ κ)) :
    ∀ (entries : List (String × String)) (acc : List (String × κ)) (n : String),
      n ∈ keysOf entries → lookupStr tbl n = none →
      ∃ e, (initAuthLoop tbl entries acc).1 = .error e := by
  intro entries
  induction entries with
  | nil => intro acc n hn _; simp [keysOf] at hn
  | cons kv rest ih =>
    intro acc n hn hun
    obtain ⟨name, data⟩ := kv
    simp only [keysOf, List.map_cons, List.mem_cons] at hn
    rcases hload : LoadHttpPlugin tbl name with _ | p
    · exact ⟨.notForConsumer name, by simp only [initAuthLoop, hload]⟩
    · have hne : n ≠ name := by
        intro he
        rw [he] at hun
        rw [LoadHttpPlugin, hun] at hload
        cases hload
      have hrest : n ∈ keysOf rest := hn.resolve_left hne
      rcases hcons : p.consumer with _ | ops
      · exact ⟨.notForConsumer name, by simp only [initAuthLoop, hload, hcons]⟩
      · rcases hdec : ops.unmarshalJSON data ops.consumerConfig with e' | conf
        · exact ⟨.unmarshalConsumerConfig name e', by simp only [initAuthLoop, hload, hcons, hdec]⟩
        · rcases hval : ops.validate conf with e' | u
          · exact ⟨.validateConsumerConfig name e', by simp only [initAuthLoop, hload, hcons, hdec, hval]⟩
          · simp only [initAuthLoop, hload, hcons, hdec, hval]
            exact ih (insertKV name conf acc) n hrest hun

theorem initFilterLoop_err_name {γ κ : Type} (tbl : List (String × Plugin γ κ)) :
    ∀ (entries : List (String × FilterConfig)) (acc : List (String × ParsedFilterConfig γ)) (e : GoErr),
      (initFilterLoop tbl entries acc).1 = .error e →
      ∃ m, errPluginName e = some m ∧ m ∈ keysOf entries := by
  intro entries
  induction entries with
  | nil => intro acc e h; simp [initFilterLoop] at h
  | cons kv rest ih =>
    intro acc e h
    obtain ⟨name, data⟩ := kv
    rcases hload : LoadHttpFilterFactoryAndParser tbl name with _ | p
    · simp only [initFilterLoop, hload, Except.error.injEq] at h
      subst h
      exact ⟨name, rfl, by simp [keysOf]⟩
    · rcases hparse : Parse p.config data.config with e' | conf
      · simp only [initFilterLoop, hload, hparse, Except.error.injEq] at h
        subst h
        exact ⟨name, rfl, by simp [keysOf]⟩
      · simp only [initFilterLoop, hload, hparse] at h
        obtain ⟨m, hm1, hm2⟩ := ih (insertKV name ⟨name, conf, p.factory⟩ acc) e h
        refine ⟨m, hm1, ?_⟩
        simp only [keysOf, List.map_cons, List.mem_cons]
        right
        exact hm2

theorem initFilterLoop_fails {γ κ : Type} (tbl : List (String × Plugin γ κ)) :
    ∀ (entries : List (String × FilterConfig)) (acc : List (String × ParsedFilterConfig γ)) (n : String),
      n ∈ keysOf entries → lookupStr tbl n = none →
      ∃ e, (initFilterLoop tbl entries acc).1 = .error e := by
  intro entries
  induction entries with
  | nil => intro acc n hn _; simp [keysOf] at hn
  | cons kv rest ih =>
    intro acc n hn hun
    obtain ⟨name, data⟩ := kv
    simp only [keysOf, List.map_cons, List.mem_cons] at hn
    rcases hload : LoadHttpFilterFactoryAndParser tbl name with _ | p
    · exact ⟨.pluginNotFound name, by simp only [initFilterLoop, hload]⟩
    · have hne : n ≠ name := by
        intro he
        rw [he] at hun
        rw [LoadHttpFilterFactoryAndParser, hun] at hload
        cases hload
      have hrest : n ∈ keysOf rest := hn.resolve_left hne
      rcases hparse : Parse p.config data.config with e' | conf
      · exact ⟨.parseInConsumer name e', by simp only [initFilterLoop, hload, hparse]⟩
      · simp only [initFilterLoop, hload, hparse]
        exact ih (insertKV name ⟨name, conf, p.factory⟩ acc) n hrest hun

theorem initFilterLoop_not_stored {γ κ : Type} (tbl : List (String × Plugin γ κ)) :
    ∀ (entries : List (String × FilterConfig)) (acc : List (String × ParsedFilterConfig γ)) (n : String),
      lookupStr tbl n = none → n ∉ keysOf acc →
      n ∉ keysOf (initFilterLoop tbl entries acc).2 := by
  intro entries
  induction entries with
  | nil => intro acc n _ hacc; simpa [initFilterLoop] using hacc
  | cons kv rest ih =>
    intro acc n hun hacc
    obtain ⟨name, data⟩ := kv
    rcases hload : LoadHttpFilterFactoryAndParser tbl name with _ | p
    · simp only [initFilterLoop, hload]
      exact hacc
    · have hne : n ≠ name := by
        intro he
        rw [he] at hun
        rw [LoadHttpFilterFactoryAndParser, hun] at hload
        cases hload
      rcases hparse : Parse p.config data.config with e' | conf
      · simp only [initFilterLoop, hload, hparse]
        exact hacc
      · simp only [initFilterLoop, hload, hparse]
        refine ih (insertKV name ⟨name, conf, p.factory⟩ acc) n hun ?_
        rw [mem_keysOf_insertKV]
        push_neg
        exact ⟨hne, hacc⟩

theorem decide_lt_asymm {α : Type} [LinearOrder α] {x y : α}
    [Decidable (x < y)] [Decidable (y < x)] (h : x ≠ y) :
    decide (x < y) = !decide (y < x) := by
  rcases lt_or_gt_of_ne h with hlt | hgt
  · rw [decide_eq_true hlt, decide_eq_false (lt_asymm hlt)]
    rfl
  · rw [decide_eq_false (lt_asymm hgt), decide_eq_true hgt]
    rfl

theorem cmpPluginOrder_asymm (ao bo : PluginOrder) (a b : String) (h : a ≠ b) :
    cmpPluginOrder ao bo a b = !cmpPluginOrder bo ao b a := by
  unfold cmpPluginOrder
  by_cases h1 : ao.position = bo.position
  · have hp : ¬(bo.position ≠ bo.position) := fun hc => hc rfl
    rw [h1]
    simp only [if_neg hp]
    by_cases h2 : ao.operation = bo.operation
    · have ho : ¬(bo.operation ≠ bo.operation) := fun hc => hc rfl
      rw [h2]
      simp only [if_neg ho]
      exact decide_lt_asymm h
    · rw [if_pos h2, if_pos (Ne.symm h2)]
      exact decide_lt_asymm h2
  · rw [if_pos h1, if_pos (Ne.symm h1)]
    exact decide_lt_asymm h1

/-- The snapshot a `ComparePluginOrder` call started from state `s` compares
against. -/
def snapOf {γ κ : Type} (s : PluginState γ κ) : List (String × PluginOrder) :=
  if s.nameToOrderDone then s.nameToOrder else orderTable s.httpPlugins

theorem comparePluginOrder_fst {γ κ : Type} (s : PluginState γ κ) (a b : String) :
    (ComparePluginOrder s a b).1 = cmpSnapshot (snapOf s) a b := by
  unfold ComparePluginOrder snapOf
  by_cases hd : s.nameToOrderDone <;> simp [hd]

theorem keysOf_orderTable {γ κ : Type} (l : List (String × Plugin γ κ)) :
    keysOf (orderTable l) = keysOf l := by
  simp [keysOf, orderTable]

/-! ## Claim theorems -/

/-- C4: for every pair of distinct registered plugin names `a`, `b`, exactly
one of `CompareOrder(a,b)` and `CompareOrder(b,a)` is true (the two calls
return opposite booleans), and the result is stable across repeated calls
within one process lifetime (a repeated call from the post-call state
returns the same answer): `ComparePluginOrder` is a strict total order over
registered names. -/
theorem comparePluginOrder_strict_total {γ κ : Type} (s : PluginState γ κ) (a b : String)
    (ha : a ∈ keysOf s.httpPlugins) (hb : b ∈ keysOf s.httpPlugins) (hab : a ≠ b) :
    (ComparePluginOrder s a b).1 = !(ComparePluginOrder s b a).1 ∧
    (ComparePluginOrder ((ComparePluginOrder s a b).2) a b).1 = (ComparePluginOrder s a b).1 := by
  constructor
  · rw [comparePluginOrder_fst, comparePluginOrder_fst]
    exact cmpPluginOrder_asymm _ _ a b hab
  · by_cases hd : s.nameToOrderDone <;> simp [ComparePluginOrder, hd]

/-- Witness for C4 at the concrete two-plugin catalog. -/
def plugBasicAuth : Plugin Unit Unit :=
  { order := ⟨10, 0⟩,
    config := { config := (), unmarshal := fun _ c => .ok c,
                validate := fun _ => .ok (), init := fun c => .ok c },
    factory := 1, consumer := none }

def plugRateLimit : Plugin Unit Unit :=
  { plugBasicAuth with order := ⟨20, 0⟩, factory := 2 }

def stateTwoPlugins : PluginState Unit Unit :=
  ⟨[("basic-auth", plugBasicAuth), ("rate-limit", plugRateLimit)], [], false⟩

theorem comparePluginOrder_strict_total_witness :
    ("basic-auth" ∈ keysOf stateTwoPlugins.httpPlugins) ∧
    ("rate-limit" ∈ keysOf stateTwoPlugins.httpPlugins) ∧
    ((ComparePluginOrder stateTwoPlugins "basic-auth" "rate-limit").1
       = !(ComparePluginOrder stateTwoPlugins "rate-limit" "basic-auth").1 ∧
     (ComparePluginOrder ((ComparePluginOrder stateTwoPlugins "basic-auth" "rate-limit").2)
        "basic-auth" "rate-limit").1
       = (ComparePluginOrder stateTwoPlugins "basic-auth" "rate-limit").1) :=
  ⟨by decide, by decide,
   comparePluginOrder_strict_total stateTwoPlugins "basic-auth" "rate-limit"
     (by decide) (by decide) (by decide)⟩

/-- C9: the `name → PluginOrder` snapshot is materialized on the first
comparison call from the then-current catalog; a later registration leaves
the snapshot unchanged, and a comparison involving the late-registered name
`n` uses the zero-value order for `n` rather than its declared `Order`. -/
theorem orderSnapshot_freeze {γ κ : Type} (s : PluginState γ κ) (a b n x : String)
    (p : Plugin γ κ) (h0 : s.nameToOrderDone = false) (hn : n ∉ keysOf s.httpPlugins) :
    ((ComparePluginOrder s a b).2).nameToOrder = orderTable s.httpPlugins ∧
    ((ComparePluginOrder s a b).2).nameToOrderDone = true ∧
    (RegisterHttpPlugin ((ComparePluginOrder s a b).2) n p).nameToOrder
      = orderTable s.httpPlugins ∧
    (ComparePluginOrder (RegisterHttpPlugin ((ComparePluginOrder s a b).2) n p) n x).1
      = cmpPluginOrder zeroOrder (lookupD (orderTable s.httpPlugins) x zeroOrder) n x := by
  have hlook : lookupD (orderTable s.httpPlugins) n zeroOrder = zeroOrder := by
    rw [lookupD, lookupStr_eq_none]
    rw [keysOf_orderTable]
    exact hn
  refine ⟨by simp [ComparePluginOrder, h0], by simp [ComparePluginOrder, h0], ?_, ?_⟩
  · simp [ComparePluginOrder, RegisterHttpPlugin, h0]
  · simp [ComparePluginOrder, RegisterHttpPlugin, h0, cmpSnapshot, hlook]

/-- Witness for C9: register `"late"` after the first comparison. -/
def stateOnePlugin : PluginState Unit Unit :=
  ⟨[("basic-auth", plugBasicAuth)], [], false⟩

theorem orderSnapshot_freeze_witness :
    stateOnePlugin.nameToOrderDone = false ∧
    ("late" ∉ keysOf stateOnePlugin.httpPlugins) ∧
    (((ComparePluginOrder stateOnePlugin "basic-auth" "basic-auth").2).nameToOrder
       = orderTable stateOnePlugin.httpPlugins ∧
     ((ComparePluginOrder stateOnePlugin "basic-auth" "basic-auth").2).nameToOrderDone = true ∧
     (RegisterHttpPlugin ((ComparePluginOrder stateOnePlugin "basic-auth" "basic-auth").2)
        "late" plugRateLimit).nameToOrder = orderTable stateOnePlugin.httpPlugins ∧
     (ComparePluginOrder (RegisterHttpPlugin
        ((ComparePluginOrder stateOnePlugin "basic-auth" "basic-auth").2) "late" plugRateLimit)
        "late" "basic-auth").1
       = cmpPluginOrder zeroOrder
           (lookupD (orderTable stateOnePlugin.httpPlugins) "basic-auth" zeroOrder)
           "late" "basic-auth") :=
  ⟨rfl, by decide,
   orderSnapshot_freeze stateOnePlugin "basic-auth" "basic-auth" "late" "basic-auth"
     plugRateLimit rfl (by decide)⟩

/-- C5: with a value present, the parse pipeline runs decode, validate,
initialize strictly in that order (the invoked-stage trace is always a
prefix of `[decode, validate, init]`) and fails fast: a decode failure
returns that error with `Validate` (and `Init`) never invoked, a validation
failure returns that error with `Init` never invoked, an initialization
failure returns that error — always the first failing stage's error. -/
theorem parse_pipeline_fail_fast {γ : Type} (ops : ConfigOps γ) (a : Json) :
    ((ParseRun ops (some a)).2 = [Stage.decode] ∨
     (ParseRun ops (some a)).2 = [Stage.decode, Stage.validate] ∨
     (ParseRun ops (some a)).2 = [Stage.decode, Stage.validate, Stage.init]) ∧
    (∀ e, ops.unmarshal a ops.config = .error e →
       ParseRun ops (some a) = (.error e, [Stage.decode])) ∧
    (∀ conf e, ops.unmarshal a ops.config = .ok conf → ops.validate conf = .error e →
       ParseRun ops (some a) = (.error e, [Stage.decode, Stage.validate])) ∧
    (∀ conf e, ops.unmarshal a ops.config = .ok conf → ops.validate conf = .ok () →
       ops.init conf = .error e →
       ParseRun ops (some a) = (.error e, [Stage.decode, Stage.validate, Stage.init])) := by
  refine ⟨?_, ?_, ?_, ?_⟩
  · rcases hdec : ops.unmarshal a ops.config with e | conf
    · left
      simp [ParseRun, hdec]
    · rcases hval : ops.validate conf with e | u
      · right; left
        simp [ParseRun, hdec, hval]
      · rcases hini : ops.init conf with e | conf'
        · right; right
          simp [ParseRun, hdec, hval, hini]
        · right; right
          simp [ParseRun, hdec, hval, hini]
  · intro e hdec
    simp [ParseRun, hdec]
  · intro conf e hdec hval
    simp [ParseRun, hdec, hval]
  · intro conf e hdec hval hini
    simp [ParseRun, hdec, hval, hini]

/-- Stage-failure behaviours used to witness C5: a config whose decode
fails, and one whose decode succeeds but whose validation fails. -/
def opsDecodeFails : ConfigOps Nat :=
  { config := 0, unmarshal := fun _ _ => .error (.msg "bad decode"),
    validate := fun _ => .ok (), init := fun c => .ok c }

def opsValidateFails : ConfigOps Nat :=
  { config := 0, unmarshal := fun _ c => .ok c,
    validate := fun _ => .error (.msg "bad validate"), init := fun c => .ok c }

theorem parse_pipeline_fail_fast_witness :
    ParseRun opsDecodeFails (some .null) = (.error (.msg "bad decode"), [Stage.decode]) ∧
    ParseRun opsValidateFails (some .null)
      = (.error (.msg "bad validate"), [Stage.decode, Stage.validate]) :=
  ⟨(parse_pipeline_fail_fast opsDecodeFails .null).2.1 (.msg "bad decode") rfl,
   (parse_pipeline_fail_fast opsValidateFails .null).2.2.1 0 (.msg "bad validate") rfl rfl⟩

/-- C10: with an absent (`nil`) configuration value the pipeline skips the
decode stage (it never appears in the invoked-stage trace) but still
invokes `Validate` and then `Init` on the factory's fresh empty config
object, returning the initialized object when both succeed and the first
failing stage's error otherwise. -/
theorem parse_absent_value {γ : Type} (ops : ConfigOps γ) :
    (Stage.decode ∉ (ParseRun ops none).2) ∧
    (∀ e, ops.validate ops.config = .error e →
       ParseRun ops none = (.error e, [Stage.validate])) ∧
    (∀ e, ops.validate ops.config = .ok () → ops.init ops.config = .error e →
       ParseRun ops none = (.error e, [Stage.validate, Stage.init])) ∧
    (∀ conf, ops.validate ops.config = .ok () → ops.init ops.config = .ok conf →
       ParseRun ops none = (.ok conf, [Stage.validate, Stage.init])) := by
  refine ⟨?_, ?_, ?_, ?_⟩
  · rcases hval : ops.validate ops.config with e | u
    · simp [ParseRun, hval]
    · rcases hini : ops.init ops.config with e | conf'
      · simp [ParseRun, hval, hini]
      · simp [ParseRun, hval, hini]
  · intro e hval
    simp [ParseRun, hval]
  · intro e hval hini
    simp [ParseRun, hval, hini]
  · intro conf hval hini
    simp [ParseRun, hval, hini]

/-- A succeeding config behaviour used to witness C10. -/
def opsAllOk : ConfigOps Nat :=
  { config := 5, unmarshal := fun _ c => .ok c,
    validate := fun _ => .ok (), init := fun c => .ok (c + 1) }

theorem parse_absent_value_witness :
    ParseRun opsAllOk none = (.ok 6, [Stage.validate, Stage.init]) :=
  (parse_absent_value opsAllOk).2.2.2 6 rfl rfl

/-- C7: `ParseProtocol` is case-insensitive and total: every input whose
lowercase form is one of the seven recognized literals maps to the
corresponding `Protocol` value, and every other input maps to
`Unsupported` — the return type is `Protocol`, never an error. -/
theorem parseProtocol_total_case_insensitive (s : String) :
    (toLowerGo s = "http" → ParseProtocol s = HTTP) ∧
    (toLowerGo s = "https" → ParseProtocol s = HTTPS) ∧
    (toLowerGo s = "grpc" → ParseProtocol s = GRPC) ∧
    (toLowerGo s = "http2" → ParseProtocol s = HTTP2) ∧
    (toLowerGo s = "mongo" → ParseProtocol s = MONGO) ∧
    (toLowerGo s = "tcp" → ParseProtocol s = TCP) ∧
    (toLowerGo s = "tls" → ParseProtocol s = TLS) ∧
    (toLowerGo s ∉ keysOf ProtocolMap → ParseProtocol s = Unsupported) := by
  refine ⟨?_, ?_, ?_, ?_, ?_, ?_, ?_, ?_⟩ <;> intro h
  · rw [ParseProtocol, h]; rfl
  · rw [ParseProtocol, h]; rfl
  · rw [ParseProtocol, h]; rfl
  · rw [ParseProtocol, h]; rfl
  · rw [ParseProtocol, h]; rfl
  · rw [ParseProtocol, h]; rfl
  · rw [ParseProtocol, h]; rfl
  · rw [ParseProtocol, lookupStr_eq_none ProtocolMap (toLowerGo s) h]

theorem parseProtocol_total_case_insensitive_witness :
    ParseProtocol "HTTP" = HTTP ∧ ParseProtocol "http" = HTTP ∧
    ParseProtocol "Http" = HTTP ∧ ParseProtocol "carrier-pigeon" = Unsupported :=
  ⟨(parseProtocol_total_case_insensitive "HTTP").1 (by decide),
   (parseProtocol_total_case_insensitive "http").1 (by decide),
   (parseProtocol_total_case_insensitive "Http").1 (by decide),
   (parseProtocol_total_case_insensitive "carrier-pigeon").2.2.2.2.2.2.2 (by decide)⟩

/-- C8: `CreateRegistry` returns the `"unknown registry %s"` error for a
name absent from the factory table without invoking any factory (the
invoked-factory trace is empty); for a registered name it returns exactly
the result of applying that name's factory to the store and metadata. -/
theorem createRegistry_lookup {σ μ ρ : Type} (tbl : List (String × RegistryFactory σ μ ρ))
    (name : String) (store : σ) (om : μ) :
    (lookupStr tbl name = none →
       CreateRegistry tbl name store om = (.error (.unknownRegistry name), [])) ∧
    (∀ f, lookupStr tbl name = some f →
       CreateRegistry tbl name store om = (f store om, [name])) := by
  constructor
  · intro h
    rw [CreateRegistry, h]
  · intro f h
    rw [CreateRegistry, h]

/-- A one-entry factory table used to witness C8. -/
def tblNacos : List (String × RegistryFactory Unit Unit Nat) :=
  [("nacos", fun _ _ => .ok 7)]

theorem createRegistry_lookup_witness :
    CreateRegistry tblNacos "unknown-backend" () ()
      = (.error (.unknownRegistry "unknown-backend"), []) ∧
    CreateRegistry tblNacos "nacos" () () = (.ok 7, ["nacos"]) :=
  ⟨(createRegistry_lookup tblNacos "unknown-backend" () ()).1 rfl,
   (createRegistry_lookup tblNacos "nacos" () ()).2 (fun _ _ => .ok 7) rfl⟩

/-- C1 (amended): the serialized form of a Consumer consists of the raw
`auth` field, the raw `filters` field when `Filters` is non-empty, and —
because they carry no `json:"-"` tag — the generated fields
`CanSkipMethod`, `FilterNames` and `FilterWrappers`; the derived fields
`ConsumerConfigs` and `FilterConfigs` (and the unexported identity fields)
never appear. -/
theorem marshal_transport_keys {γ κ : Type} (c : Consumer γ κ) :
    (Consumer.Marshal c).keys
      = ["auth"] ++ (if (c.Filters.getD []).isEmpty then [] else ["filters"])
        ++ ["CanSkipMethod", "FilterNames", "FilterWrappers"] ∧
    "ConsumerConfigs" ∉ (Consumer.Marshal c).keys ∧
    "FilterConfigs" ∉ (Consumer.Marshal c).keys := by
  rcases hF : c.Filters with _ | l
  · refine ⟨?_, ?_, ?_⟩ <;>
      simp [Consumer.Marshal, Json.keys, keysOf, filtersField, hF]
  · rcases l with _ | ⟨kv, rest⟩
    · refine ⟨?_, ?_, ?_⟩ <;>
        simp [Consumer.Marshal, Json.keys, keysOf, filtersField, hF]
    · refine ⟨?_, ?_, ?_⟩ <;>
        simp [Consumer.Marshal, Json.keys, keysOf, filtersField, hF]

/-- C1 counterexample: already for the zero-value Consumer the serialized
form contains the derived fields `CanSkipMethod`, `FilterNames` and
`FilterWrappers` (they carry no `json:"-"` tag in the struct), so the
transport form does not contain only the raw `auth`/`filters` fields. -/
theorem marshal_derived_fields_cex :
    (Consumer.Marshal (freshConsumer Unit Unit)).keys
      = ["auth", "CanSkipMethod", "FilterNames", "FilterWrappers"] ∧
    "CanSkipMethod" ∈ (Consumer.Marshal (freshConsumer Unit Unit)).keys ∧
    "FilterNames" ∈ (Consumer.Marshal (freshConsumer Unit Unit)).keys ∧
    "FilterWrappers" ∈ (Consumer.Marshal (freshConsumer Unit Unit)).keys :=
  ⟨rfl, by decide, by decide, by decide⟩

/-- The scenario catalog: `"basic-auth"` registered at `Order{10,0}` and
`"rate-limit"` at `Order{20,0}` (the plugins' config hooks all succeed). -/
def tblScenario : List (String × Plugin Unit Unit) :=
  [("basic-auth", plugBasicAuth), ("rate-limit", plugRateLimit)]

/-- The scenario Consumer: `Filters` containing exactly `rate-limit` and
`basic-auth`. -/
def consumerScenario : Consumer Unit Unit :=
  { freshConsumer Unit Unit with
    Filters := some [("rate-limit", ⟨some (Json.obj [])⟩), ("basic-auth", ⟨none⟩)] }

/-- C2 counterexample: in the scenario, `InitConfigs` succeeds but the
resulting `FilterNames` is still `nil`, not `["basic-auth", "rate-limit"]`
— the sources' `InitConfigs` never writes `FilterNames`. -/
theorem initConfigs_filterNames_cex :
    (InitConfigs tblScenario consumerScenario).1 = .ok () ∧
    ((InitConfigs tblScenario consumerScenario).2).FilterNames = none ∧
    (none : Option (List String)) ≠ some ["basic-auth", "rate-limit"] :=
  ⟨rfl, rfl, by decide⟩

/-- C2 (amended): `InitConfigs` itself leaves `FilterNames` unchanged (in
the given sources the `FilterNames` derivation happens outside
`InitConfigs`); the spec-modelled derivation — the names of `Filters`
sorted by `ComparePluginOrder` — applied to a `Filters` mapping holding
exactly `rate-limit` and `basic-auth` under a snapshot registering
`basic-auth` at `Order{10,0}` and `rate-limit` at `Order{20,0}` yields
`["basic-auth", "rate-limit"]`. -/
theorem filterNames_scenario_order {γ κ : Type} (tbl : List (String × Plugin γ κ))
    (c : Consumer γ κ) (snap : List (String × PluginOrder)) (fc1 fc2 : FilterConfig)
    (h1 : lookupD snap "basic-auth" zeroOrder = ⟨10, 0⟩)
    (h2 : lookupD snap "rate-limit" zeroOrder = ⟨20, 0⟩) :
    ((InitConfigs tbl c).2).FilterNames = c.FilterNames ∧
    deriveFilterNames snap (some [("rate-limit", fc1), ("basic-auth", fc2)])
      = ["basic-auth", "rate-limit"] := by
  constructor
  · unfold InitConfigs
    rcases h : (initAuthLoop tbl (c.Auth.getD []) []).1 with e | u
    · simp [h]
    · simp [h]
  · simp [deriveFilterNames, keysO, keysOf, sortByCmp, insertSorted, cmpSnapshot,
          h1, h2, cmpPluginOrder]

theorem filterNames_scenario_order_witness :
    (lookupD (orderTable tblScenario) "basic-auth" zeroOrder = ⟨10, 0⟩ ∧
     lookupD (orderTable tblScenario) "rate-limit" zeroOrder = ⟨20, 0⟩) ∧
    (((InitConfigs tblScenario consumerScenario).2).FilterNames
       = consumerScenario.FilterNames ∧
     deriveFilterNames (orderTable tblScenario)
       (some [("rate-limit", ⟨none⟩), ("basic-auth", ⟨none⟩)])
       = ["basic-auth", "rate-limit"]) :=
  ⟨⟨by decide, by decide⟩,
   filterNames_scenario_order tblScenario consumerScenario (orderTable tblScenario)
     ⟨none⟩ ⟨none⟩ (by decide) (by decide)⟩

/-- C3 (amended): if some plugin name `n` appearing in `Filters` or `Auth`
does not resolve to a registered plugin, `InitConfigs` returns an error
identifying the plugin at the first failing entry — a name present in
`Auth` or `Filters`, though not necessarily `n` itself when another entry
fails first — and stores no entry under `n` in `FilterConfigs` (assuming,
per the Consumer lifecycle, that the receiver did not already carry a stale
`FilterConfigs` entry for `n`). -/
theorem initConfigs_unresolved_fails {γ κ : Type} (tbl : List (String × Plugin γ κ))
    (c : Consumer γ κ) (n : String)
    (hmem : n ∈ keysO c.Auth ∨ n ∈ keysO c.Filters)
    (hunreg : lookupStr tbl n = none)
    (hfc : n ∉ keysO c.FilterConfigs) :
    (∃ e, (InitConfigs tbl c).1 = .error e ∧
       ∃ m, errPluginName e = some m ∧ (m ∈ keysO c.Auth ∨ m ∈ keysO c.Filters)) ∧
    n ∉ keysO ((InitConfigs tbl c).2).FilterConfigs := by
  rcases hA : (initAuthLoop tbl (c.Auth.getD []) []).1 with eA | uA
  · refine ⟨⟨eA, ?_, ?_⟩, ?_⟩
    · simp only [InitConfigs, hA]
    · obtain ⟨m, hm1, hm2⟩ := initAuthLoop_err_name tbl (c.Auth.getD []) [] eA hA
      exact ⟨m, hm1, Or.inl hm2⟩
    · simp only [InitConfigs, hA]
      exact hfc
  · have hnAuth : n ∉ keysOf (c.Auth.getD []) := by
      intro hmemA
      obtain ⟨e, he⟩ := initAuthLoop_fails tbl (c.Auth.getD []) [] n hmemA hunreg
      rw [hA] at he
      cases he
    have hnF : n ∈ keysO c.Filters := hmem.resolve_left hnAuth
    obtain ⟨e, he⟩ := initFilterLoop_fails tbl (c.Filters.getD []) [] n hnF hunreg
    refine ⟨⟨e, ?_, ?_⟩, ?_⟩
    · simp only [InitConfigs, hA]
      exact he
    · obtain ⟨m, hm1, hm2⟩ := initFilterLoop_err_name tbl (c.Filters.getD []) [] e he
      exact ⟨m, hm1, Or.inr hm2⟩
    · simp only [InitConfigs, hA]
      exact initFilterLoop_not_stored tbl (c.Filters.getD []) [] n hunreg (by simp [keysOf])

/-- A Consumer whose `Filters` references two unregistered plugins. -/
def consumerTwoUnregistered : Consumer Unit Unit :=
  { freshConsumer Unit Unit with Filters := some [("a", ⟨none⟩), ("b", ⟨none⟩)] }

/-- C3 counterexample: with two unregistered names `"a"` and `"b"` in
`Filters` (empty catalog), the name `"b"` satisfies the claim's hypothesis
but the returned error identifies `"a"`, not `"b"` — so "returns an error
identifying that plugin name" fails for `n = "b"`. -/
theorem initConfigs_unresolved_cex :
    ("b" ∈ keysO consumerTwoUnregistered.Filters) ∧
    lookupStr ([] : List (String × Plugin Unit Unit)) "b" = none ∧
    (InitConfigs ([] : List (String × Plugin Unit Unit)) consumerTwoUnregistered).1
      = .error (.pluginNotFound "a") ∧
    errPluginName (.pluginNotFound "a") ≠ some "b" :=
  ⟨by decide, rfl, rfl, by decide⟩

/-- A Consumer whose `Filters` references one unregistered plugin. -/
def consumerOneUnregistered : Consumer Unit Unit :=
  { freshConsumer Unit Unit with Filters := some [("ghost", ⟨none⟩)] }

theorem initConfigs_unresolved_fails_witness :
    (("ghost" ∈ keysO consumerOneUnregistered.Auth ∨
      "ghost" ∈ keysO consumerOneUnregistered.Filters) ∧
     lookupStr ([] : List (String × Plugin Unit Unit)) "ghost" = none ∧
     "ghost" ∉ keysO consumerOneUnregistered.FilterConfigs) ∧
    ((∃ e, (InitConfigs ([] : List (String × Plugin Unit Unit))
              consumerOneUnregistered).1 = .error e ∧
        ∃ m, errPluginName e = some m ∧
          (m ∈ keysO consumerOneUnregistered.Auth ∨
           m ∈ keysO consumerOneUnregistered.Filters)) ∧
     "ghost" ∉ keysO ((InitConfigs ([] : List (String × Plugin Unit Unit))
              consumerOneUnregistered).2).FilterConfigs) :=
  ⟨⟨Or.inr (by decide), rfl, by decide⟩,
   initConfigs_unresolved_fails [] consumerOneUnregistered "ghost"
     (Or.inr (by decide)) rfl (by decide)⟩

theorem decodeStrMap_marshal (l : List (String × String)) (h : keysSorted l) :
    decodeStrMap (.obj (l.map (fun kv => (kv.1, Json.str kv.2)))) none = .ok (some l) := by
  have hstep : decodeStrMap (.obj (l.map (fun kv => (kv.1, Json.str kv.2)))) none
      = .ok (some (buildMap l)) := by
    simp only [decodeStrMap, decodeStrFields_map l]
    rfl
  rw [hstep, buildMap_eq_self l h]

theorem decodeFilterMap_marshal (l : List (String × FilterConfig)) (h : keysSorted l)
    (hc : ∀ kv ∈ l, kv.2.config ≠ some Json.null) :
    decodeFilterMap (.obj (l.map (fun kv => (kv.1, marshalFilterConfig kv.2)))) none
      = .ok (some l) := by
  have hstep : decodeFilterMap (.obj (l.map (fun kv => (kv.1, marshalFilterConfig kv.2)))) none
      = .ok (some (buildMap l)) := by
    simp only [decodeFilterMap, decodeFilterFields_map l hc]
    rfl
  rw [hstep, buildMap_eq_self l h]

theorem decodeBoolFields_map (bl : List (String × Bool)) :
    decodeBoolFields (bl.map (fun kv => (kv.1, Json.bool kv.2))) = .ok bl := by
  induction bl with
  | nil => rfl
  | cons kv rest ih =>
    obtain ⟨k, b⟩ := kv
    simp only [List.map_cons, decodeBoolFields, ih]
    rfl

theorem decodeBoolMap_marshal (m : Option (List (String × Bool))) :
    ∃ r, decodeBoolMap (marshalBoolMap m) none = .ok r := by
  rcases m with _ | l
  · exact ⟨none, rfl⟩
  · refine ⟨some (buildMap (buildMap l)), ?_⟩
    simp only [marshalBoolMap, decodeBoolMap, decodeBoolFields_map (buildMap l)]
    rfl

theorem decodeStrElems_map (xs : List String) :
    decodeStrElems (xs.map Json.str) = .ok xs := by
  induction xs with
  | nil => rfl
  | cons x rest ih =>
    simp only [List.map_cons, decodeStrElems, ih]
    rfl

theorem decodeStrList_marshal (m : Option (List String)) :
    ∃ r, decodeStrList (marshalStrList m) none = .ok r := by
  rcases m with _ | xs
  · exact ⟨none, rfl⟩
  · refine ⟨some xs, ?_⟩
    simp only [marshalStrList, decodeStrList, decodeStrElems_map xs]
    rfl

theorem decodeWrappers_marshal (m : Option (List FilterWrapper)) :
    ∃ r, decodeWrappers (marshalWrappers m) none = .ok r := by
  rcases m with _ | xs
  · exact ⟨none, rfl⟩
  · exact ⟨some xs, rfl⟩

theorem unmarshal_fields {γ κ : Type} (c : Consumer γ κ) (ja jf jb jn jw : Json) :
    Consumer.Unmarshal c (.obj [("auth", ja), ("filters", jf), ("CanSkipMethod", jb),
        ("FilterNames", jn), ("FilterWrappers", jw)])
      = (do
          let auth ← decodeStrMap ja c.Auth
          let filters ← decodeFilterMap jf c.Filters
          let canSkip ← decodeBoolMap jb c.CanSkipMethod
          let fNames ← decodeStrList jn c.FilterNames
          let fWrappers ← decodeWrappers jw c.FilterWrappers
          .ok { c with Auth := auth, Filters := filters, CanSkipMethod := canSkip,
                       FilterNames := fNames, FilterWrappers := fWrappers }) := rfl

/-- C6 (amended): for every Consumer with non-nil `Auth` and non-nil,
non-empty `Filters` (in canonical Go-map representation: entries strictly
sorted by key, filter blobs not redundantly encoding `nil` as a JSON
`null`), unmarshalling the marshalled form into a fresh Consumer reproduces
`Auth` and `Filters` exactly.  Non-emptiness of `Filters` is required
because `omitempty` drops an empty `filters` field, which then decodes back
to a `nil` map (the counterexample). -/
theorem marshal_roundtrip {γ κ : Type} (c : Consumer γ κ)
    (al : List (String × String)) (fl : List (String × FilterConfig))
    (hA : c.Auth = some al) (hAs : keysSorted al)
    (hF : c.Filters = some fl) (hFs : keysSorted fl) (hne : fl ≠ [])
    (hcanon : ∀ kv ∈ fl, kv.2.config ≠ some Json.null) :
    ∃ c' : Consumer γ κ,
      Consumer.Unmarshal (freshConsumer γ κ) (Consumer.Marshal c) = .ok c' ∧
      c'.Auth = c.Auth ∧ c'.Filters = c.Filters := by
  obtain ⟨rB, hB⟩ := decodeBoolMap_marshal c.CanSkipMethod
  obtain ⟨rN, hN⟩ := decodeStrList_marshal c.FilterNames
  obtain ⟨rW, hW⟩ := decodeWrappers_marshal c.FilterWrappers
  have hSM := decodeStrMap_marshal al hAs
  have hFM := decodeFilterMap_marshal fl hFs hcanon
  have hba : buildMap al = al := buildMap_eq_self al hAs
  have hbf : buildMap fl = fl := buildMap_eq_self fl hFs
  have hM : Consumer.Marshal c
      = .obj [("auth", .obj (al.map (fun kv => (kv.1, Json.str kv.2)))),
              ("filters", .obj (fl.map (fun kv => (kv.1, marshalFilterConfig kv.2)))),
              ("CanSkipMethod", marshalBoolMap c.CanSkipMethod),
              ("FilterNames", marshalStrList c.FilterNames),
              ("FilterWrappers", marshalWrappers c.FilterWrappers)] := by
    rcases fl with _ | ⟨kv0, fl'⟩
    · exact absurd rfl hne
    · simp [Consumer.Marshal, marshalStrMap, filtersField, hA, hF, hba, hbf]
  refine ⟨{ freshConsumer γ κ with Auth := some al, Filters := some fl, CanSkipMethod := rB, FilterNames := rN, FilterWrappers := rW }, ?_, by simp [freshConsumer, hA], by simp [freshConsumer, hF]⟩
  rw [hM, unmarshal_fields]
  simp only [freshConsumer]
  rw [hSM, hFM, hB, hN, hW]
  rfl

/-- A Consumer with non-nil but empty `Auth` and `Filters` maps. -/
def consumerEmptyMaps : Consumer Unit Unit :=
  { freshConsumer Unit Unit with Auth := some [], Filters := some [] }

/-- C6 counterexample: for a Consumer with non-nil `Auth` and non-nil but
EMPTY `Filters`, the `omitempty` tag drops the `filters` field from the
marshalled form, so unmarshalling into a fresh Consumer yields a `nil`
(`none`) `Filters` — not exactly equal to the original non-nil empty map. -/
theorem marshal_roundtrip_cex :
    consumerEmptyMaps.Auth = some [] ∧
    consumerEmptyMaps.Filters = some [] ∧
    (Consumer.Unmarshal (freshConsumer Unit Unit) consumerEmptyMaps.Marshal).map
        (fun c => c.Filters) = .ok none ∧
    (none : Option (List (String × FilterConfig))) ≠ consumerEmptyMaps.Filters :=
  ⟨rfl, rfl, rfl, fun h => Option.noConfusion h⟩

/-- A concrete Consumer in canonical representation used to witness C6. -/
def consumerRoundtrip : Consumer Unit Unit :=
  { freshConsumer Unit Unit with
    Auth := some [("key", "blob")],
    Filters := some [("filter", ⟨some (Json.num 1)⟩)] }

theorem marshal_roundtrip_witness :
    ∃ c' : Consumer Unit Unit,
      Consumer.Unmarshal (freshConsumer Unit Unit) consumerRoundtrip.Marshal = .ok c' ∧
      c'.Auth = consumerRoundtrip.Auth ∧ c'.Filters = consumerRoundtrip.Filters :=
  marshal_roundtrip consumerRoundtrip [("key", "blob")] [("filter", ⟨some (Json.num 1)⟩)]
    rfl (by decide) rfl (by decide) (List.cons_ne_nil _ _)
    (by
      intro kv hkv
      have h := List.mem_singleton.mp hkv
      subst h
      intro hc
      exact Json.noConfusion (Option.some.inj hc))
